import Mathlib

/-!
Shallow embedding of the qs-daemon core (src/main.rs) and verification of its
specification.

Modelling conventions:
* Rust `String`/`&str` values are modelled as `List Char`; character indices
  coincide with list positions, and the byte positions that some `str`
  methods return (such as `rfind`) are computed through the UTF-8 byte
  length of the characters.
* The external fuzzy-matching primitive (nucleo) is an opaque collaborator:
  it is a parameter `fz : List Char → List Char → Option (Nat × List Nat)`
  mapping a query pattern and a haystack filename to an optional score
  (a `u32`) together with the ordered list of matched character offsets.
  The source calls `pattern.score` and then `pattern.indices`; both are
  deterministic functions of pattern and haystack, so they are modelled as a
  single call returning both.
* The `fd` subprocess, the `HOME` environment variable and the system clock
  are inputs threaded explicitly into `FileIndex.update`.
* `u32 as i32` casts are modelled exactly (two's-complement wraparound);
  `SystemTime` is modelled as seconds since the epoch (`Nat`).
-/

namespace QsDaemon

open List

/-- FileEntry from src/main.rs: an indexed file's absolute path and its
home-relative display form. -/
structure FileEntry where
  path : List Char
  display_path : List Char
deriving DecidableEq

/-- SearchMatch from src/main.rs: one highlighted character offset. -/
structure SearchMatch where
  char_index : Nat
deriving DecidableEq

/-- SearchResult from src/main.rs. -/
structure SearchResult where
  path : List Char
  display_path : List Char
  «matches» : List SearchMatch
  score : Int
deriving DecidableEq

/-- The Rust cast `u32 as i32` (two's-complement reinterpretation). -/
def u32_as_i32 (n : Nat) : Int :=
  let m := n % 4294967296
  if m < 2147483648 then (m : Int) else (m : Int) - 4294967296

/-- Split a character list at every occurrence of `c` (Rust `str::split`):
always returns at least one piece, and one more piece per separator. -/
def splitOnChar (c : Char) : List Char → List (List Char)
  | [] => [[]]
  | x :: xs =>
    let r := splitOnChar c xs
    if x = c then [] :: r
    else
      match r with
      | [] => [[x]]
      | p :: ps => (x :: p) :: ps

/-- Drop one trailing carriage return, as Rust `lines` does on every line that
was terminated by a newline. -/
def dropTrailingCR (l : List Char) : List Char :=
  if l.getLast? = some '\r' then l.dropLast else l

/-- Rust `str::lines`: split at newlines, strip a carriage return preceding
each newline, and do not produce a trailing empty line when the string ends
with a newline.  A final piece not terminated by a newline keeps any trailing
carriage return, matching the standard library. -/
def rustLines (s : List Char) : List (List Char) :=
  let ps := splitOnChar '\n' s
  let body := (ps.dropLast).map dropTrailingCR
  match ps.getLast? with
  | none => body
  | some [] => body
  | some lastPiece => body ++ [lastPiece]

/-- The Unicode White_Space property, which Rust `char::is_whitespace`
implements (the set used by `str::trim`). -/
def rustIsWhitespace (c : Char) : Bool :=
  c.toNat = 9 || c.toNat = 10 || c.toNat = 11 || c.toNat = 12 || c.toNat = 13 ||
  c.toNat = 32 || c.toNat = 133 || c.toNat = 160 || c.toNat = 5760 ||
  (8192 ≤ c.toNat && c.toNat ≤ 8202) ||
  c.toNat = 8232 || c.toNat = 8233 || c.toNat = 8239 || c.toNat = 8287 ||
  c.toNat = 12288

/-- Rust `str::trim`: remove leading and trailing whitespace. -/
def rustTrim (l : List Char) : List Char :=
  ((l.dropWhile rustIsWhitespace).reverse.dropWhile rustIsWhitespace).reverse

/-- Rust `Path::new(s).file_name().and_then(to_str).unwrap_or("")` on Unix:
the last path component, where empty components and `.` components are
ignored; the empty string results when there is no component or the last
component is `..`. -/
def fileName (s : List Char) : List Char :=
  let parts := (splitOnChar '/' s).filter (fun p => !(p == []) && !(p == ['.']))
  match parts.getLast? with
  | none => []
  | some l => if l = ['.', '.'] then [] else l

/-- The number of bytes in the UTF-8 encoding of one character. -/
def utf8Len (c : Char) : Nat :=
  if c.toNat ≤ 127 then 1
  else if c.toNat ≤ 2047 then 2
  else if c.toNat ≤ 65535 then 3
  else 4

/-- The byte length of the UTF-8 encoding of a string. -/
def utf8ByteSize (s : List Char) : Nat := (s.map utf8Len).sum

/-- Rust `str::rfind('/')`: the BYTE index (into the UTF-8 encoding) of the
last occurrence of a slash.  `str::rfind` returns byte positions, not
character positions, so the slash found after characters `cs` sits at byte
index `utf8ByteSize cs`. -/
def rfindSlash : List Char → Option Nat
  | [] => none
  | c :: rest =>
    match rfindSlash rest with
    | some i => some (i + utf8Len c)
    | none => if c = '/' then some 0 else none

/-- The `filename_offset` computation of `FileIndex::search`
(src/main.rs:168-172): one past the last slash, or `0` with no slash.
Because `rfind` yields a byte index, this is a BYTE offset into
`display_path`, although src/main.rs:177 adds it to the character index
produced by the fuzzy primitive. -/
def filename_offset (s : List Char) : Nat :=
  match rfindSlash s with
  | some p => p + 1
  | none => 0

/-- The body of the scoring loop of `FileIndex::search` (src/main.rs:155-188)
for a single entry: score the filename against the pattern; if it matches,
build a `SearchResult` whose match offsets are the primitive's offsets shifted
by `filename_offset`. -/
def scoreEntry (fz : List Char → Option (Nat × List Nat)) (file : FileEntry) :
    Option SearchResult :=
  match fz (fileName file.display_path) with
  | none => none
  | some (score, indices) =>
    some { path := file.path,
           display_path := file.display_path,
           «matches» := indices.map
             (fun idx => { char_index := idx + filename_offset file.display_path }),
           score := u32_as_i32 score }

/-- Stable insertion into a score-descending list: the incoming element `x`
stems from an earlier scan position than everything already in the list, so it
is placed before the first element whose score is `≤ x.score`. -/
def insertByScore (x : SearchResult) : List SearchResult → List SearchResult
  | [] => [x]
  | y :: ys => if y.score ≤ x.score then x :: y :: ys else y :: insertByScore x ys

/-- The Rust call `results.sort_by(|a, b| b.score.cmp(&a.score))`
(src/main.rs:190) is a stable sort into descending score order.  All stable
sorts agree extensionally, so it is modelled by stable insertion sort; the
theorems `sortByScoreDesc_perm`, `sortByScoreDesc_sorted` and
`sublist_sortByScoreDesc` below establish exactly the stable-sort contract. -/
def sortByScoreDesc : List SearchResult → List SearchResult
  | [] => []
  | x :: xs => insertByScore x (sortByScoreDesc xs)

/-- `FileIndex::search` (src/main.rs:134-193) as a function of the entry list.
`fz` is the pattern already parsed from the query. -/
def searchList (fz : List Char → Option (Nat × List Nat)) (files : List FileEntry)
    (query : List Char) (limit : Option Nat) : List SearchResult :=
  let lim := limit.getD 100
  if query = [] then
    (files.take lim).map (fun file =>
      { path := file.path, display_path := file.display_path,
        «matches» := [], score := 0 })
  else
    (sortByScoreDesc (files.filterMap (scoreEntry fz))).take lim

/-- The Index: entry list plus last-rebuild timestamp (epoch seconds).  The
`matcher` field of the Rust struct is the external primitive's scratch state
and carries no program-visible data; it is not modelled. -/
structure FileIndex where
  files : List FileEntry
  last_updated : Nat
deriving DecidableEq

/-- The failure cases of `FileIndex::update`: the `?` on `Command::output`,
the `bail!` on a non-zero exit status, and the `?` on `String::from_utf8`. -/
inductive RebuildError where
  | ioError (msg : List Char)
  | fdFailed (stderr : List Char)
  | invalidUtf8 (msg : List Char)
deriving DecidableEq

/-- The rendered message (`e.to_string()`) of each rebuild failure; the
non-zero-exit case uses the format string of the `bail!` at src/main.rs:105. -/
def RebuildError.toMessage : RebuildError → List Char
  | .ioError msg => msg
  | .fdFailed stderr => ("fd command failed: ".toList) ++ stderr
  | .invalidUtf8 msg => msg

/-- Outcome of running the `fd` subprocess and decoding its output, the
external input to one rebuild attempt. -/
inductive FdOutput where
  | ioError (msg : List Char)
  | exitFailure (stderr : List Char)
  | invalidUtf8 (msg : List Char)
  | ok (stdout : List Char)
deriving DecidableEq

/-- The display-path computation of `FileIndex::update` (src/main.rs:116-120):
a plain string-prefix test against `home`, replacing the prefix by a tilde. -/
def toDisplayPath (home path : List Char) : List Char :=
  if home <+: path then '~' :: path.drop home.length else path

/-- The line-parsing pipeline of `FileIndex::update` (src/main.rs:112-127):
split stdout into lines, keep lines whose trimmed content is non-empty, and
build one `FileEntry` per kept line. -/
def parseEntries (home stdout : List Char) : List FileEntry :=
  ((rustLines stdout).filter (fun line => !(rustTrim line).isEmpty)).map
    (fun path => { path := path, display_path := toDisplayPath home path })

/-- `FileIndex::update` (src/main.rs:95-132).  `home` is the value of the
`HOME` environment variable (`"/home"` when unset), `fd` the subprocess
outcome, `now` the current clock reading.  Every failure is an early return
taken before any assignment to `self`, so the index is returned unchanged;
on success the entry list is replaced wholesale and the timestamp updated. -/
def FileIndex.update (idx : FileIndex) (home : List Char) (fd : FdOutput)
    (now : Nat) : FileIndex × Except RebuildError Unit :=
  match fd with
  | .ioError msg => (idx, .error (.ioError msg))
  | .exitFailure stderr => (idx, .error (.fdFailed stderr))
  | .invalidUtf8 msg => (idx, .error (.invalidUtf8 msg))
  | .ok stdout => ({ files := parseEntries home stdout, last_updated := now }, .ok ())

/-- `FileIndex::search` at index level.  The Rust method takes `&mut self`
solely because the matcher scratch state is mutable; its body contains no
assignment to `self.files` or `self.last_updated`, so the index component of
the result is the input index. -/
def FileIndex.search (idx : FileIndex) (fz : List Char → Option (Nat × List Nat))
    (query : List Char) (limit : Option Nat) : FileIndex × List SearchResult :=
  (idx, searchList fz idx.files query limit)

/-- `FileIndex::len` (src/main.rs:195-197). -/
def FileIndex.len (idx : FileIndex) : Nat := idx.files.length

/-- `FileIndex::last_updated_timestamp` (src/main.rs:203-208), with
`SystemTime` already modelled as epoch seconds. -/
def FileIndex.last_updated_timestamp (idx : FileIndex) : Nat := idx.last_updated

/-- The tagged request enum `DaemonRequest`. -/
inductive DaemonRequest where
  | search (query : List Char) (limit : Option Nat)
  | refresh
  | status
deriving DecidableEq

/-- The tagged response enum `DaemonResponse` (with `SearchResponse` fields
inlined into the `SearchResults` variant). -/
inductive DaemonResponse where
  | searchResults (results : List SearchResult) (results_count : Nat)
      (total_files : Nat)
  | refreshComplete (files_count : Nat)
  | status (files_count : Nat) (last_updated : Nat)
  | error (message : List Char)
deriving DecidableEq

/-- External inputs consumed while servicing one received frame in
`handle_client`: the outcome of `serde_json::from_str` on the frame (the
parser is an external collaborator, so the parse outcome with its rendered
error detail is an input), the subprocess outcome and clock reading used if
the frame is a `Refresh`, and the delivery outcomes.  `responseWriteOk`
stands for the conjunction of write, newline-write and flush success on the
response socket, `fallbackOk` for the same on the request socket. -/
structure FrameInput where
  parsed : Option DaemonRequest
  parseErr : List Char
  refreshOut : FdOutput
  refreshNow : Nat
  responseWriteOk : Bool
  fallbackOk : Bool
deriving DecidableEq

/-- The dispatch step of `handle_client` (src/main.rs:228-263): turn one
frame into a response, reading or updating the index as the variant
demands.  A frame that fails to parse yields the message
`Invalid request: ` followed by the parse-error detail, and touches
nothing. -/
def processRequest (fuzzy : List Char → List Char → Option (Nat × List Nat))
    (home : List Char) (idx : FileIndex) (fi : FrameInput) :
    FileIndex × DaemonResponse :=
  match fi.parsed with
  | none => (idx, .error (("Invalid request: ".toList) ++ fi.parseErr))
  | some (.search query limit) =>
    let results := searchList (fuzzy query) idx.files query limit
    (idx, .searchResults results results.length idx.files.length)
  | some .refresh =>
    match idx.update home fi.refreshOut fi.refreshNow with
    | (idx2, .ok _) => (idx2, .refreshComplete idx2.files.length)
    | (idx2, .error e) => (idx2, .error e.toMessage)
  | some .status => (idx, .status idx.len idx.last_updated_timestamp)

/-- State left by the per-connection read loop: index, shared response-writer
slot (`Option Unit`, presence only), the responses produced in order, and
whether the loop was left through the `break` of a fallback-delivery
failure. -/
structure HandlerTrace where
  idx : FileIndex
  rw : Option Unit
  responses : List DaemonResponse
  broke : Bool
deriving DecidableEq

/-- The read loop of `handle_client` (src/main.rs:225-322) over the frames
actually received.  Delivery per frame: take the shared response writer; if
present and the write succeeds, put it back; if present and the write fails,
drop it and fall back; with no writer, fall back directly.  A fallback
failure breaks out of the loop. -/
def runFrames (fuzzy : List Char → List Char → Option (Nat × List Nat))
    (home : List Char) : FileIndex → Option Unit → List FrameInput → HandlerTrace
  | idx, rw, [] => { idx := idx, rw := rw, responses := [], broke := false }
  | idx, rw, fi :: rest =>
    let step := processRequest fuzzy home idx fi
    if rw.isSome && fi.responseWriteOk then
      let t := runFrames fuzzy home step.1 (some ()) rest
      { t with responses := step.2 :: t.responses }
    else if fi.fallbackOk then
      let t := runFrames fuzzy home step.1 none rest
      { t with responses := step.2 :: t.responses }
    else
      { idx := step.1, rw := none, responses := [step.2], broke := true }

/-- Final state of one connection handler: the trace data plus the
active-client counter value and whether the handler returned `Ok`. -/
structure ClientOutcome where
  idx : FileIndex
  rw : Option Unit
  counter : Nat
  responses : List DaemonResponse
  retOk : Bool
deriving DecidableEq

/-- `handle_client` (src/main.rs:211-330).  `counter` is the active-client
count on entry; `readFailed` states that, after the given frames, the next
`next_line` call returned an error, whose `?` propagates out of the function
before the `fetch_sub` at src/main.rs:324 — only the end-of-stream exit and
the `break` exit reach the decrement. -/
def handle_client (fuzzy : List Char → List Char → Option (Nat × List Nat))
    (home : List Char) (idx : FileIndex) (rw : Option Unit) (counter : Nat)
    (frames : List FrameInput) (readFailed : Bool) : ClientOutcome :=
  let c1 := counter + 1
  let t := runFrames fuzzy home idx rw frames
  if t.broke then
    { idx := t.idx, rw := t.rw, counter := c1 - 1, responses := t.responses,
      retOk := true }
  else if readFailed then
    { idx := t.idx, rw := t.rw, counter := c1, responses := t.responses,
      retOk := false }
  else
    { idx := t.idx, rw := t.rw, counter := c1 - 1, responses := t.responses,
      retOk := true }

/-! Properties of the stable descending-score sort. -/

/-- The descending-score order produced by the comparator
`|a, b| b.score.cmp(&a.score)`. -/
def scoreGe (a b : SearchResult) : Prop := b.score ≤ a.score

theorem insertByScore_perm (x : SearchResult) (l : List SearchResult) :
    insertByScore x l ~ x :: l := by
  induction l with
  | nil => simp [insertByScore]
  | cons y ys ih =>
    simp only [insertByScore]
    split
    · exact List.Perm.refl _
    · exact (List.Perm.cons y ih).trans (List.Perm.swap x y ys)

theorem sortByScoreDesc_perm (l : List SearchResult) : sortByScoreDesc l ~ l := by
  induction l with
  | nil => simp [sortByScoreDesc]
  | cons x xs ih =>
    exact (insertByScore_perm x (sortByScoreDesc xs)).trans (List.Perm.cons x ih)

theorem insertByScore_sorted {x : SearchResult} {l : List SearchResult}
    (h : l.Pairwise scoreGe) : (insertByScore x l).Pairwise scoreGe := by
  induction l with
  | nil => simp [insertByScore, scoreGe]
  | cons y ys ih =>
    obtain ⟨hy, hys⟩ := List.pairwise_cons.1 h
    simp only [insertByScore]
    split
    · rename_i hxy
      refine List.pairwise_cons.2 ⟨?_, h⟩
      intro z hz
      rcases List.mem_cons.1 hz with hz | hz
      · subst hz; exact hxy
      · exact le_trans (hy z hz) hxy
    · rename_i hxy
      refine List.pairwise_cons.2 ⟨?_, ih hys⟩
      intro z hz
      rcases List.mem_cons.1 ((insertByScore_perm x ys).mem_iff.1 hz) with hz | hz
      · subst hz; exact le_of_not_le hxy
      · exact hy z hz

theorem sortByScoreDesc_sorted (l : List SearchResult) :
    (sortByScoreDesc l).Pairwise scoreGe := by
  induction l with
  | nil => simp [sortByScoreDesc]
  | cons x xs ih => exact insertByScore_sorted ih

theorem insertByScore_eq_append (x : SearchResult) (l : List SearchResult) :
    ∃ p s, l = p ++ s ∧ insertByScore x l = p ++ x :: s ∧
      ∀ y ∈ p, ¬ y.score ≤ x.score := by
  induction l with
  | nil => exact ⟨[], [], rfl, rfl, by simp⟩
  | cons y ys ih =>
    by_cases h : y.score ≤ x.score
    · exact ⟨[], y :: ys, rfl, by simp [insertByScore, h], by simp⟩
    · obtain ⟨p, s, h1, h2, h3⟩ := ih
      refine ⟨y :: p, s, by simp [h1], by simp [insertByScore, h, h2], ?_⟩
      intro z hz
      rcases List.mem_cons.1 hz with hz | hz
      · subst hz; exact h
      · exact h3 z hz

theorem sublist_insertByScore {m l : List SearchResult} (x : SearchResult)
    (h : m <+ l) : m <+ insertByScore x l := by
  obtain ⟨p, s, h1, h2, -⟩ := insertByScore_eq_append x l
  rw [h2]
  subst h1
  exact h.trans (List.Sublist.append_left (List.sublist_cons_self x s) p)

theorem pair_sublist_insertByScore {b : SearchResult} {l : List SearchResult}
    (x : SearchResult) (hb : b ∈ l) (hs : b.score ≤ x.score) :
    [x, b] <+ insertByScore x l := by
  obtain ⟨p, s, h1, h2, h3⟩ := insertByScore_eq_append x l
  rw [h2]
  have hbs : b ∈ s := by
    subst h1
    rcases List.mem_append.1 hb with hp | hs2
    · exact absurd hs (h3 b hp)
    · exact hs2
  exact List.sublist_append_of_sublist_right
    (List.Sublist.cons₂ x (List.singleton_sublist.2 hbs))

theorem pair_sublist_sortByScoreDesc {a b : SearchResult} {l : List SearchResult}
    (h : [a, b] <+ l) (hs : b.score ≤ a.score) : [a, b] <+ sortByScoreDesc l := by
  induction l with
  | nil => simp at h
  | cons y ys ih =>
    cases h with
    | cons _ h2 => exact sublist_insertByScore y (ih h2)
    | cons₂ _ h2 =>
      exact pair_sublist_insertByScore a
        ((sortByScoreDesc_perm ys).mem_iff.2 (List.singleton_sublist.1 h2)) hs

theorem sorted_perm_distinct_eq : ∀ {l₁ l₂ : List SearchResult},
    l₁ ~ l₂ → l₁.Pairwise scoreGe → l₂.Pairwise scoreGe →
    l₁.Pairwise (fun a b => a.score ≠ b.score) → l₁ = l₂ := by
  intro l₁
  induction l₁ with
  | nil =>
    intro l₂ hp _ _ _
    exact (List.Perm.nil_eq hp).symm ▸ rfl
  | cons a t₁ ih =>
    intro l₂ hp hs₁ hs₂ hd
    cases l₂ with
    | nil => exact absurd hp.symm (by simp)
    | cons b t₂ =>
      have hab : a = b := by
        by_contra hne
        have ha2 : a ∈ t₂ := by
          rcases List.mem_cons.1 (hp.subset (List.mem_cons_self a t₁)) with h | h
          · exact absurd h hne
          · exact h
        have hb1 : b ∈ t₁ := by
          rcases List.mem_cons.1 (hp.symm.subset (List.mem_cons_self b t₂)) with h | h
          · exact absurd h.symm hne
          · exact h
        have h1 : b.score ≤ a.score := (List.pairwise_cons.1 hs₁).1 b hb1
        have h2 : a.score ≤ b.score := (List.pairwise_cons.1 hs₂).1 a ha2
        exact (List.pairwise_cons.1 hd).1 b hb1 (le_antisymm h2 h1)
      subst hab
      have ht : t₁ = t₂ :=
        ih hp.cons_inv (List.pairwise_cons.1 hs₁).2 (List.pairwise_cons.1 hs₂).2
          (List.pairwise_cons.1 hd).2
      rw [ht]

/-! Claim theorems. -/

/-- C9: for every query string and limit, search leaves the Index unchanged:
the entry sequence and the last-updated timestamp are identical before and
after the call (the Rust body contains no assignment to `self.files` or
`self.last_updated`). -/
theorem search_leaves_index_unchanged (idx : FileIndex)
    (fz : List Char → Option (Nat × List Nat)) (query : List Char)
    (limit : Option Nat) :
    (idx.search fz query limit).1.files = idx.files ∧
    (idx.search fz query limit).1.last_updated = idx.last_updated ∧
    (idx.search fz query limit).1 = idx :=
  ⟨rfl, rfl, rfl⟩

/-- C5: a search with an empty query returns exactly
`min (limit) (total_files)` results, namely the first entries in index order,
each with score `0` and an empty match list. -/
theorem search_empty_query (fz : List Char → Option (Nat × List Nat))
    (files : List FileEntry) (lim : Option Nat) :
    searchList fz files [] lim =
      (files.take (lim.getD 100)).map (fun file =>
        { path := file.path, display_path := file.display_path,
          «matches» := [], score := 0 }) ∧
    (searchList fz files [] lim).length = min (lim.getD 100) files.length ∧
    ∀ r ∈ searchList fz files [] lim, r.score = 0 ∧ r.«matches» = [] := by
  have h1 : searchList fz files [] lim =
      (files.take (lim.getD 100)).map (fun file =>
        { path := file.path, display_path := file.display_path,
          «matches» := [], score := 0 }) := by
    simp [searchList]
  refine ⟨h1, by simp [h1], ?_⟩
  intro r hr
  rw [h1] at hr
  obtain ⟨f, -, hf⟩ := List.mem_map.1 hr
  rw [← hf]
  exact ⟨rfl, rfl⟩

theorem search_empty_query_witness :
    (SearchResult.mk "/a/b".toList "~/b".toList [] 0 ∈
      searchList (fun _ => none) [FileEntry.mk "/a/b".toList "~/b".toList] [] none) ∧
    (SearchResult.mk "/a/b".toList "~/b".toList [] 0).score = 0 ∧
    (SearchResult.mk "/a/b".toList "~/b".toList [] 0).«matches» = [] :=
  ⟨by decide,
   (search_empty_query (fun _ => none) [FileEntry.mk "/a/b".toList "~/b".toList]
     none).2.2 (SearchResult.mk "/a/b".toList "~/b".toList [] 0) (by decide)⟩

/-- C6: every failing rebuild attempt (subprocess launch error, non-zero exit
status, or undecodable output) returns an error carrying the failure detail
and leaves both the entry list and the last-updated timestamp exactly at
their pre-attempt values. -/
theorem update_failure_preserves_index (idx : FileIndex) (home : List Char)
    (now : Nat) (fd : FdOutput) (h : ∀ stdout, fd ≠ .ok stdout) :
    (idx.update home fd now).1 = idx ∧
    (idx.update home fd now).1.files = idx.files ∧
    (idx.update home fd now).1.last_updated = idx.last_updated ∧
    ∃ e : RebuildError, (idx.update home fd now).2 = .error e ∧
      (∀ stderr, fd = .exitFailure stderr → e = .fdFailed stderr) ∧
      (∀ msg, fd = .invalidUtf8 msg → e = .invalidUtf8 msg) ∧
      (∀ msg, fd = .ioError msg → e = .ioError msg) := by
  cases fd with
  | ioError msg =>
    exact ⟨rfl, rfl, rfl, .ioError msg, rfl, by simp, by simp, by simp⟩
  | exitFailure stderr =>
    exact ⟨rfl, rfl, rfl, .fdFailed stderr, rfl, by simp, by simp, by simp⟩
  | invalidUtf8 msg =>
    exact ⟨rfl, rfl, rfl, .invalidUtf8 msg, rfl, by simp, by simp, by simp⟩
  | ok stdout => exact absurd rfl (h stdout)

theorem update_failure_preserves_index_witness :
    (∀ stdout, FdOutput.exitFailure "boom".toList ≠ .ok stdout) ∧
    ((FileIndex.mk [FileEntry.mk "/a".toList "/a".toList] 3).update "/h".toList
        (.exitFailure "boom".toList) 9).1 =
      FileIndex.mk [FileEntry.mk "/a".toList "/a".toList] 3 :=
  ⟨by simp,
   (update_failure_preserves_index
     (FileIndex.mk [FileEntry.mk "/a".toList "/a".toList] 3) "/h".toList 9
     (.exitFailure "boom".toList) (by simp)).1⟩

/-- C10: the home-directory rewrite is a plain string-prefix test: whenever
`home` is a string prefix of the path — component boundary or not — the
display path is a tilde followed by the remainder after the prefix. -/
theorem display_path_prefix_rewrite (home p : List Char) (h : home <+: p) :
    toDisplayPath home p = '~' :: p.drop home.length := by
  unfold toDisplayPath
  rw [if_pos h]

theorem display_path_prefix_rewrite_witness :
    ("/home/u".toList <+: "/home/ubuntu/f".toList) ∧
    toDisplayPath "/home/u".toList "/home/ubuntu/f".toList = "~buntu/f".toList ∧
    toDisplayPath "/home/u".toList "/home/ubuntu/f".toList ≠ "/home/ubuntu/f".toList :=
  ⟨by decide,
   (display_path_prefix_rewrite "/home/u".toList "/home/ubuntu/f".toList
     (by decide)).trans (by decide),
   by decide⟩

/-- C7 counterexample: a line consisting of one space is a non-empty line of
the subprocess output, yet the rebuilt index contains no entry for it — the
filter drops every line whose whitespace-trimmed content is empty, not only
empty lines. -/
theorem update_nonempty_line_counterexample :
    rustLines [' '] = [[' ']] ∧ ([' '] : List Char) ≠ [] ∧
    ((FileIndex.mk [] 0).update "/h".toList (.ok [' ']) 7).1.files = [] := by
  decide

/-- C7 (amended): on every successful rebuild the new entry list is exactly
one `FileEntry` per line of the subprocess output whose whitespace-trimmed
content is non-empty, in line order; each entry's display path is its path
with the home prefix replaced by a tilde when the home string is a prefix and
is the path itself otherwise; the entry set is replaced wholesale and the
timestamp is set to the current time. -/
theorem update_success (idx : FileIndex) (home stdout : List Char) (now : Nat) :
    idx.update home (.ok stdout) now =
      ({ files := ((rustLines stdout).filter
            (fun line => !(rustTrim line).isEmpty)).map
            (fun p => { path := p, display_path := toDisplayPath home p }),
         last_updated := now }, .ok ()) ∧
    (∀ p, home <+: p → toDisplayPath home p = '~' :: p.drop home.length) ∧
    (∀ p, ¬ home <+: p → toDisplayPath home p = p) := by
  refine ⟨rfl, fun p hp => display_path_prefix_rewrite home p hp, ?_⟩
  intro p hp
  unfold toDisplayPath
  rw [if_neg hp]

theorem update_success_witness :
    ((FileIndex.mk [] 0).update "/h".toList (.ok "/a\n \n/h/b".toList) 9).1.files =
      [FileEntry.mk "/a".toList "/a".toList,
       FileEntry.mk "/h/b".toList "~/b".toList] ∧
    ("/h".toList <+: "/h/b".toList) ∧
    toDisplayPath "/h".toList "/h/b".toList = '~' :: ("/h/b".toList.drop 2) :=
  ⟨by decide, by decide,
   (update_success (FileIndex.mk [] 0) "/h".toList "/a\n \n/h/b".toList 9).2.1
     "/h/b".toList (by decide)⟩

/-- C2 is violated by the code: on the clean end-of-stream path the
active-client counter returns to its starting value, but when the
`next_line` read fails, the `?` operator propagates the error out of
`handle_client` before the `fetch_sub`, so the counter stays incremented
forever (net change `+1`, not `0`). -/
theorem handle_client_read_error_leaks_counter :
    (handle_client (fun _ _ => none) "/h".toList (FileIndex.mk [] 0) none 0 []
        true).counter = 1 ∧
    (handle_client (fun _ _ => none) "/h".toList (FileIndex.mk [] 0) none 0 []
        true).retOk = false ∧
    (handle_client (fun _ _ => none) "/h".toList (FileIndex.mk [] 0) none 0 []
        false).counter = 0 := by
  decide

theorem searchList_nonempty_eq (fz : List Char → Option (Nat × List Nat))
    (files : List FileEntry) (q : List Char) (lim : Option Nat) (hq : q ≠ []) :
    searchList fz files q lim =
      (sortByScoreDesc (files.filterMap (scoreEntry fz))).take (lim.getD 100) := by
  simp [searchList, hq]

/-- C3: for every non-empty query the result count is at most
`min limit total_files` (with the 100 default), and every returned result
scores at least as high as every matched entry that was not returned. -/
theorem search_count_and_score_bound (fz : List Char → Option (Nat × List Nat))
    (files : List FileEntry) (q : List Char) (lim : Option Nat) (hq : q ≠ []) :
    (searchList fz files q lim).length ≤ min (lim.getD 100) files.length ∧
    ∀ a ∈ searchList fz files q lim,
      ∀ b ∈ files.filterMap (scoreEntry fz),
        b ∉ searchList fz files q lim → b.score ≤ a.score := by
  have he := searchList_nonempty_eq fz files q lim hq
  constructor
  · rw [he, List.length_take]
    have h1 : (sortByScoreDesc (files.filterMap (scoreEntry fz))).length =
        (files.filterMap (scoreEntry fz)).length :=
      (sortByScoreDesc_perm _).length_eq
    have h2 := List.length_filterMap_le (scoreEntry fz) files
    omega
  · intro a ha b hb hnb
    rw [he] at ha hnb
    have hbs : b ∈ sortByScoreDesc (files.filterMap (scoreEntry fz)) :=
      (sortByScoreDesc_perm _).mem_iff.2 hb
    have hbd : b ∈ (sortByScoreDesc (files.filterMap (scoreEntry fz))).drop
        (lim.getD 100) := by
      rcases List.mem_append.1
          (by rw [List.take_append_drop]; exact hbs :
            b ∈ (sortByScoreDesc (files.filterMap (scoreEntry fz))).take (lim.getD 100) ++
              (sortByScoreDesc (files.filterMap (scoreEntry fz))).drop (lim.getD 100))
        with h | h
      · exact absurd h hnb
      · exact h
    have hp : List.Pairwise scoreGe
        ((sortByScoreDesc (files.filterMap (scoreEntry fz))).take (lim.getD 100) ++
          (sortByScoreDesc (files.filterMap (scoreEntry fz))).drop (lim.getD 100)) := by
      rw [List.take_append_drop]
      exact sortByScoreDesc_sorted _
    exact (List.pairwise_append.1 hp).2.2 a ha b hbd

/-- C4: the ranking of a non-empty-query search sorts the entire scored
entry set by descending score and only then truncates to the limit; the sort
is stable, so equal-score entries keep the scan order; and for pairwise
distinct scores the ranked output does not depend on the order of the entry
set. -/
theorem search_ranking (fz : List Char → Option (Nat × List Nat))
    (files files2 : List FileEntry) (q : List Char) (lim : Option Nat)
    (a b : SearchResult) (hq : q ≠ []) :
    (searchList fz files q lim =
      (sortByScoreDesc (files.filterMap (scoreEntry fz))).take (lim.getD 100)) ∧
    ([a, b] <+ files.filterMap (scoreEntry fz) → b.score ≤ a.score →
      [a, b] <+ sortByScoreDesc (files.filterMap (scoreEntry fz))) ∧
    (files ~ files2 →
      (files.filterMap (scoreEntry fz)).Pairwise (fun x y => x.score ≠ y.score) →
      searchList fz files q lim = searchList fz files2 q lim) := by
  refine ⟨searchList_nonempty_eq fz files q lim hq,
    fun h hs => pair_sublist_sortByScoreDesc h hs, ?_⟩
  intro hperm hdist
  have hsp : files.filterMap (scoreEntry fz) ~ files2.filterMap (scoreEntry fz) :=
    hperm.filterMap _
  have hde : sortByScoreDesc (files.filterMap (scoreEntry fz)) =
      sortByScoreDesc (files2.filterMap (scoreEntry fz)) := by
    apply sorted_perm_distinct_eq
    · exact (sortByScoreDesc_perm _).trans (hsp.trans (sortByScoreDesc_perm _).symm)
    · exact sortByScoreDesc_sorted _
    · exact sortByScoreDesc_sorted _
    · exact (List.Perm.pairwise_iff (fun h => Ne.symm h)
        (sortByScoreDesc_perm _)).2 hdist
  rw [searchList_nonempty_eq fz files q lim hq,
    searchList_nonempty_eq fz files2 q lim hq, hde]

/-- C8: a frame that fails to parse yields an `Error` response carrying the
rendered parse error, leaves the index untouched, and (when the delivery of
that response succeeds) the read loop goes on to process the remaining
frames exactly as it would have. -/
theorem parse_failure_keeps_connection
    (fuzzy : List Char → List Char → Option (Nat × List Nat)) (home : List Char)
    (idx : FileIndex) (rw : Option Unit) (fi : FrameInput) (rest : List FrameInput)
    (hp : fi.parsed = none) (hd : fi.fallbackOk = true) :
    processRequest fuzzy home idx fi =
      (idx, .error ("Invalid request: ".toList ++ fi.parseErr)) ∧
    (runFrames fuzzy home idx rw (fi :: rest)).responses =
      DaemonResponse.error ("Invalid request: ".toList ++ fi.parseErr) ::
        (runFrames fuzzy home idx
          (if rw.isSome && fi.responseWriteOk then some () else none) rest).responses ∧
    (runFrames fuzzy home idx rw (fi :: rest)).broke =
      (runFrames fuzzy home idx
        (if rw.isSome && fi.responseWriteOk then some () else none) rest).broke := by
  have hstep : processRequest fuzzy home idx fi =
      (idx, .error ("Invalid request: ".toList ++ fi.parseErr)) := by
    unfold processRequest
    rw [hp]
  refine ⟨hstep, ?_, ?_⟩ <;>
    · simp only [runFrames, hstep]
      by_cases hrw : (rw.isSome && fi.responseWriteOk) = true
      · simp [hrw]
      · simp [hrw, hd]

/-! Concrete fixtures used by the witnesses. -/

/-- Sample fuzzy primitive: matches the filenames `b1` and `b2`. -/
def wFz : List Char → Option (Nat × List Nat) := fun h =>
  if h = "b1".toList then some (5, [0])
  else if h = "b2".toList then some (9, [1])
  else if h = "b3".toList then some (9, [0])
  else none

def wE1 : FileEntry := FileEntry.mk "/home/u/b1".toList "~/b1".toList

def wE2 : FileEntry := FileEntry.mk "/home/u/b2".toList "~/b2".toList

def wE3 : FileEntry := FileEntry.mk "/home/u/b3".toList "~/b3".toList

def wR2 : SearchResult :=
  SearchResult.mk "/home/u/b2".toList "~/b2".toList [SearchMatch.mk 3] 9

def wR3 : SearchResult :=
  SearchResult.mk "/home/u/b3".toList "~/b3".toList [SearchMatch.mk 2] 9

theorem search_count_and_score_bound_witness :
    (("b".toList : List Char) ≠ []) ∧
    ((searchList wFz [wE1, wE2] "b".toList (some 1)).length ≤ min 1 2 ∧
      ∀ a ∈ searchList wFz [wE1, wE2] "b".toList (some 1),
        ∀ b ∈ [wE1, wE2].filterMap (scoreEntry wFz),
          b ∉ searchList wFz [wE1, wE2] "b".toList (some 1) → b.score ≤ a.score) :=
  ⟨by decide,
   search_count_and_score_bound wFz [wE1, wE2] "b".toList (some 1) (by decide)⟩

/-- Entry whose display path contains a multi-byte character before the
last slash: in `~/é/a` the last slash has byte index 4 but character
index 3. -/
def mEnt : FileEntry := FileEntry.mk "/home/u/é/a".toList "~/é/a".toList

/-- Sample fuzzy primitive matching the filename `a` at offset `0`. -/
def mFz : List Char → Option (Nat × List Nat) := fun h =>
  if h = "a".toList then some (7, [0]) else none

/-- The result the program emits for `mEnt`: its match offset is
`0 + filename_offset`, with `filename_offset = 5` the byte offset one past
the last slash of `~/é/a`. -/
def mRes : SearchResult :=
  SearchResult.mk "/home/u/é/a".toList "~/é/a".toList [SearchMatch.mk 5] 7

/-- C1 is violated by the code: `str::rfind` (src/main.rs:168) returns a
byte index, and src/main.rs:177 adds it to the character index produced by
the fuzzy primitive.  For display path `~/é/a` the last slash has byte
index 4, so the program emits match offset `k + 5` for the filename-relative
offset `k = 0`; the character immediately after the last slash has character
index 4, so the claim demands `k + 4`.  The emitted offset `5` is not even a
valid character offset into the 5-character display path, so the emitted
offsets are not character offsets into `display_path`. -/
theorem search_offset_byte_char_mixup :
    searchList mFz [mEnt] "a".toList none = [mRes] ∧
    mRes.«matches» = [SearchMatch.mk 5] ∧
    rfindSlash "~/é/a".toList = some 4 ∧
    utf8ByteSize ("~/é/a".toList.take 3) = 4 ∧
    "~/é/a".toList[3]? = some '/' ∧
    (∀ j, j < ("~/é/a".toList).length → 3 < j →
      "~/é/a".toList[j]? ≠ some '/') ∧
    ("~/é/a".toList).length = 5 ∧
    (0 : Nat) + (3 + 1) ≠ 5 := by
  decide

theorem search_ranking_witness :
    (("b".toList : List Char) ≠ [] ∧
      [wR2, wR3] <+ [wE2, wE3].filterMap (scoreEntry wFz) ∧
      wR3.score ≤ wR2.score ∧
      [wE1, wE2] ~ [wE2, wE1] ∧
      ([wE1, wE2].filterMap (scoreEntry wFz)).Pairwise
        (fun x y => x.score ≠ y.score)) ∧
    ([wR2, wR3] <+ sortByScoreDesc ([wE2, wE3].filterMap (scoreEntry wFz)) ∧
      searchList wFz [wE1, wE2] "b".toList none =
        searchList wFz [wE2, wE1] "b".toList none) :=
  ⟨⟨by decide, by decide, by decide, List.Perm.swap wE2 wE1 [], by decide⟩,
   ⟨(search_ranking wFz [wE2, wE3] [wE2, wE3] "b".toList none wR2 wR3
       (by decide)).2.1 (by decide) (by decide),
    (search_ranking wFz [wE1, wE2] [wE2, wE1] "b".toList none wR2 wR3
       (by decide)).2.2 (List.Perm.swap wE2 wE1 []) (by decide)⟩⟩

/-- Frame fixture: a frame that fails to parse and whose fallback delivery
succeeds. -/
def wBadFrame : FrameInput :=
  FrameInput.mk none "oops".toList (.ok []) 0 false true

theorem parse_failure_keeps_connection_witness :
    (wBadFrame.parsed = none ∧ wBadFrame.fallbackOk = true) ∧
    (processRequest (fun _ _ => none) "/h".toList (FileIndex.mk [] 0) wBadFrame =
      (FileIndex.mk [] 0,
        .error ("Invalid request: ".toList ++ wBadFrame.parseErr)) ∧
    (runFrames (fun _ _ => none) "/h".toList (FileIndex.mk [] 0) none
        [wBadFrame]).responses =
      DaemonResponse.error ("Invalid request: ".toList ++ wBadFrame.parseErr) ::
        (runFrames (fun _ _ => none) "/h".toList (FileIndex.mk [] 0)
          (if (none : Option Unit).isSome && wBadFrame.responseWriteOk
            then some () else none) []).responses ∧
    (runFrames (fun _ _ => none) "/h".toList (FileIndex.mk [] 0) none
        [wBadFrame]).broke =
      (runFrames (fun _ _ => none) "/h".toList (FileIndex.mk [] 0)
        (if (none : Option Unit).isSome && wBadFrame.responseWriteOk
          then some () else none) []).broke) :=
  ⟨⟨rfl, rfl⟩,
   parse_failure_keeps_connection (fun _ _ => none) "/h".toList
     (FileIndex.mk [] 0) none wBadFrame [] rfl rfl⟩

end QsDaemon
